import Mathlib

/-!
# Verification of the srclib `coverage` core

Shallow embedding of the coverage computation of `cli/coverage_cmd.go`
(file inventory builder, analysis-graph loader, coverage aggregator) and of
the repository-open caching of `src/repo_opt.go`, together with proofs
settling the frozen claims about the natural-language specification.

Conventions of the embedding:
* Go byte strings are `List Char` (each `Char` holds one byte value; every
  byte the algorithms branch on is ASCII, so byte-level and rune-level
  scanning agree).
* Go `float64` values arising in this program are exact: every numerator and
  denominator is a small integer count, so we model IEEE division on them
  with `FloatVal` (an exact rational, positive infinity, or NaN).  `x/0` is
  `inf` for `x ≠ 0` and `nan` for `0/0`, exactly as in IEEE arithmetic on
  nonnegative integral operands.
* Go maps are association lists with unique keys; map iteration order is
  abstracted as list order (the claims never depend on bucket order, only on
  membership and on the accumulated sums, which are order-independent).
-/

set_option autoImplicit false

namespace Srclib

/-- Model of the `float64` values produced by this program: an exact
rational (stored as a gcd-normalized numerator/denominator pair, so that
equal rationals have equal representations), `+∞`, or NaN.  All numerators
and denominators in the program are nonnegative integer counts, so this
carries exactly the IEEE outcomes. -/
inductive FloatVal where
  | finite : ℤ → ℕ → FloatVal
  | inf : FloatVal
  | nan : FloatVal
  deriving DecidableEq

/-- IEEE division of two nonnegative integer counts cast to `float64`:
`0/0` is NaN, `x/0` with `x ≠ 0` is `+∞`, otherwise the exact quotient in
lowest terms (integer counts and their quotients are exact in `float64`). -/
def fdivNat (x y : ℕ) : FloatVal :=
  if y = 0 then (if x = 0 then .nan else .inf)
  else .finite (x / Nat.gcd x y : ℕ) (y / Nat.gcd x y)

/-- `divideSentinel` from `cli/coverage_cmd.go` lines 252–258, specialized to
the integer-count operands it is applied to: `q := x / y; if math.IsNaN(q)
{ return sentinel }; return q`.  Note it replaces only NaN, not infinity. -/
def divideSentinel (x y : ℕ) (sentinel : ℤ) : FloatVal :=
  match fdivNat x y with
  | .nan => .finite sentinel 1
  | v => v

/-- `fileTokThresh` from `cli/coverage_cmd.go` line 28: `0.7 = 7/10` as a
fraction. -/
def fileTokThreshNum : ℤ := 7

/-- Denominator of `fileTokThresh`. -/
def fileTokThreshDen : ℕ := 10

/-- The comparison `q > fileTokThresh` on a `float64` quotient `q`: false
for NaN, true for `+∞` (used by the per-file threshold test on line 233). -/
def fgtThresh : FloatVal → Bool
  | .finite n d => decide (fileTokThreshNum * d < n * fileTokThreshDen)
  | .inf => true
  | .nan => false

/-! ## Comment stripping (`stripComments`, lines 289–312)

`stripComments` drives Go's generic `text/scanner` tokenizer (with
`SkipComments` cleared and errors suppressed) over the data and copies every
byte except the bytes of `Comment` tokens.

Modelled from the spec: the tokenizer itself is the Go standard library's
`text/scanner`, which is not part of this repository's sources.  The spec
describes it as "a single generic, language-agnostic tokenizer that
recognizes nested/standard comment delimiters and string/char literal
boundaries well enough not to misinterpret comment-like sequences inside
literals; on tokenizer errors, continue silently".  We model exactly the
part of its behaviour `stripComments` observes — which bytes belong to
comment tokens: `//` line comments run to (and exclude) the next newline;
`/* */` block comments run to `*/` (or EOF when unterminated); `"…"` and
`'…'` literals protect their contents, honour `\`-escapes, and are
terminated early by a raw newline or EOF (an error the scanner swallows);
`` ` ``-raw literals protect their contents (newlines included) up to the
closing backquote or EOF.  All non-comment bytes, whitespace included, are
copied verbatim. -/
/-- The scanning mode: top level, inside a quoted literal (`esc` is whether
backslash escapes and newline termination apply — true for `"` and `'`
literals, false for raw `` ` `` literals), inside a `//` comment, or inside
a `/* */` comment. -/
inductive ScanMode where
  | top : ScanMode
  | lit : Char → Bool → ScanMode
  | line : ScanMode
  | block : ScanMode
  deriving DecidableEq

/-- One pass of comment stripping, as a mode-indexed byte walk.  (In the
`.lit` catch-all clause the close-quote test comes first, matching the
scanner, which checks for the closing quote before anything else; the
escape clause can only fire first for a quote character of `'\\'`, which no
caller ever passes.) -/
def stripFrom : ScanMode → List Char → List Char
  | .top, [] => []
  | .top, '/' :: '/' :: rest => stripFrom .line rest
  | .top, '/' :: '*' :: rest => stripFrom .block rest
  | .top, c :: rest =>
      if c = '"' then c :: stripFrom (.lit '"' true) rest
      else if c = '\'' then c :: stripFrom (.lit '\'' true) rest
      else if c = '`' then c :: stripFrom (.lit '`' false) rest
      else c :: stripFrom .top rest
  | .lit _ _, [] => []
  | .lit q true, '\\' :: c2 :: rest =>
      if c2 = '\n' then '\\' :: c2 :: stripFrom .top rest
      else '\\' :: c2 :: stripFrom (.lit q true) rest
  | .lit q esc, c :: rest =>
      if c = q then c :: stripFrom .top rest
      else if esc && c = '\n' then c :: stripFrom .top rest
      else c :: stripFrom (.lit q esc) rest
  | .line, [] => []
  | .line, '\n' :: rest => '\n' :: stripFrom .top rest
  | .line, _ :: rest => stripFrom .line rest
  | .block, [] => []
  | .block, '*' :: '/' :: rest => stripFrom .top rest
  | .block, _ :: rest => stripFrom .block rest

/-- `stripComments` from `cli/coverage_cmd.go` lines 289–312. -/
def stripComments (data : List Char) : List Char :=
  stripFrom .top data

/-! ## Line counting (`numLines`, `isNotBlank`, lines 263–322) -/
/-- `unicode.IsSpace(rune(b))` for a byte `b` (`isNotBlank` converts each
byte to a rune before testing): space, tab, newline, vertical tab, form
feed, carriage return, NEL (0x85) and NBSP (0xA0). -/
def isSpaceGo (c : Char) : Bool :=
  c.toNat = 32 || c.toNat = 9 || c.toNat = 10 || c.toNat = 11 ||
  c.toNat = 12 || c.toNat = 13 || c.toNat = 0x85 || c.toNat = 0xA0

/-- `isNotBlank` from lines 315–322: true if the data contains at least one
non-whitespace byte. -/
def isNotBlank (data : List Char) : Bool :=
  data.any (fun c => !isSpaceGo c)

/-- The scanning loop of `numLines` (lines 272–283): walks the data cutting
at each `'\n'` (the accumulator holds the current line, reversed) and counts
the newline-terminated lines that are not blank.  A final segment without a
terminating newline is not counted by the loop (the loop exits when
`IndexByte` returns -1). -/
def countFullLines : List Char → List Char → ℕ
  | _, [] => 0
  | acc, c :: rest =>
      if c = '\n' then
        (if isNotBlank ((c :: acc).reverse) then 1 else 0) + countFullLines [] rest
      else countFullLines (c :: acc) rest

/-- `numLines` from lines 263–286: strips comments, returns 0 for empty
data, and otherwise returns `1 +` the number of non-blank newline-terminated
lines (the initial `count := 1` of the source). -/
def numLines (data : List Char) : ℕ :=
  let d := stripComments data
  if d.length = 0 then 0 else 1 + countFullLines [] d

/-- Definition following the spec's words (for comparison with `numLines`):
the number of segments containing at least one non-whitespace character,
where the segments are the newline-terminated lines plus, for input with
content but no trailing newline, the final newline-less segment. -/
def specSegLoop : List Char → List Char → ℕ
  | acc, [] => if isNotBlank acc.reverse then 1 else 0
  | acc, c :: rest =>
      if c = '\n' then
        (if isNotBlank ((c :: acc).reverse) then 1 else 0) + specSegLoop [] rest
      else specSegLoop (c :: acc) rest

/-- Spec-side line count: non-blank segments of the (already stripped) data. -/
def specNonBlankSegments (data : List Char) : ℕ :=
  specSegLoop [] data

/-- The mode a *second* stripping pass is in when it reaches the output a
first pass produced from mode `m`: literal contents are copied verbatim so
the second pass is inside the same literal; the remainder of a stripped
comment is rescanned at top level. -/
def reMode : ScanMode → ScanMode
  | .top => .top
  | .lit q esc => .lit q esc
  | .line => .top
  | .block => .top

/-! ## Keys and units (`graph.DefKey`, `unit.SourceUnit`, `adjustDefKey`) -/
/-- The fields of `graph.DefKey` used by this program (see `adjustDefKey`,
lines 326–343): repository, unit type, unit name, and path. -/
structure DefKey where
  Repo : String
  UnitType : String
  Unit : String
  Path : String
  deriving DecidableEq

/-- The identity of a `unit.SourceUnit`: its `Type` and `Name` fields (the
only ones this program reads). -/
structure SourceUnit where
  «Type» : String
  Name : String
  deriving DecidableEq

/-- `adjustDefKey` from `cli/coverage_cmd.go` lines 326–343: clears the
repository field and fills an empty unit type / unit name from the owning
unit. -/
def adjustDefKey (key : DefKey) («unit» : SourceUnit) : DefKey :=
  let ret : DefKey :=
    { Repo := "", UnitType := key.UnitType, Unit := key.Unit, Path := key.Path }
  let ret := if ret.UnitType = "" then { ret with UnitType := «unit».«Type» } else ret
  let ret := if ret.Unit = "" then { ret with Unit := «unit».Name } else ret
  ret

/-! ## References and definitions (`graph.Ref`, `graph.Def`)

Modelled from the spec: the `graph.Ref`/`graph.Def` struct definitions and
the `Ref.DefKey`/`Ref.SetFromDefKey` methods are part of this repository but
not under `src/` (only their callers are).  Per the spec (§3), a reference
"identifies the file it occurs in, and the definition it points to,
expressed either as an explicit external-origin pointer (non-empty
'defining repository') or as a local definition-key
(unit-type/unit-name/path)", and per §4.2 the loader's normalization is
applied to "every reference's effective key ... before any equality
comparison is performed" while an explicit defining-repository pointer
remains "an externally-resolved, trusted pointer".  We therefore model
`SetFromDefKey` as updating the reference's local comparison key
(unit-type, unit-name, path) and leaving the defining-repository pointer as
emitted.  (Caveat: if the real `Ref.SetFromDefKey` also overwrites
`DefRepo` with the cleared `Repo` field of the key, the
defining-repository validity branch of lines 195–197 would be dead code;
the spec's explicit scenario contradicts that reading.) -/
/-- A reference: the definition it points to and the file it occurs in. -/
structure Ref where
  DefRepo : String
  DefUnitType : String
  DefUnit : String
  DefPath : String
  File : String
  deriving DecidableEq

/-- `Ref.DefKey()`: the key of the definition the reference points to. -/
def Ref.DefKeyOf (r : Ref) : DefKey :=
  { Repo := r.DefRepo, UnitType := r.DefUnitType, Unit := r.DefUnit, Path := r.DefPath }

/-- `Ref.SetFromDefKey(k)` as used on the normalized key (see the model
note above): the local comparison key is updated in place. -/
def Ref.SetFromDefKey (r : Ref) (k : DefKey) : Ref :=
  { r with DefUnitType := k.UnitType, DefUnit := k.Unit, DefPath := k.Path }

/-- A definition: its key and the file it is declared in. -/
structure Def where
  Key : DefKey
  File : String
  deriving DecidableEq

/-- `graph.Output`: one unit's artifact — its definitions and references. -/
structure Output where
  Defs : List Def
  Refs : List Ref
  deriving DecidableEq

/-! ## File inventory builder (`coverage`, lines 99–130) -/
/-- `codeFileDatum` from lines 43–49. -/
structure codeFileDatum where
  LoC : ℕ
  NumRefs : ℕ
  NumDefs : ℕ
  NumRefsValid : ℕ
  Language : String
  deriving DecidableEq

/-- `langToExts` from lines 76–87. -/
def langToExts : List (String × List String) :=
  [("Go", [".go"]), ("Java", [".java"]), ("Python", [".py"]), ("Ruby", [".rb"]),
   ("C++", [".cpp"]), ("TypeScript", [".ts"]), ("C#", [".cs"]),
   ("JavaScript", [".js"]), ("PHP", [".php"]), ("Objective-C", [".m"])]

/-- `extToLang` (built by the init at lines 90–97): the language whose
extension list contains `ext` (extensions are unique across languages, so
iteration order of the building loop does not matter). -/
def extToLang (ext : String) : Option String :=
  (langToExts.find? (fun p => p.2.contains ext)).map (·.1)

/-- `filepath.Ext`: the suffix of the path starting at the final dot of the
final slash-separated element, `""` if there is none (working over the
reversed character list). -/
def extFromRev : List Char → List Char → List Char
  | [], _ => []
  | '/' :: _, _ => []
  | '.' :: _, seen => '.' :: seen
  | c :: rest, seen => extFromRev rest (c :: seen)

/-- `filepath.Ext(path)`. -/
def fileExt (p : String) : String :=
  ⟨extFromRev p.data.reverse []⟩

deriving instance DecidableEq for Except

/-- One entry seen by the `filepath.Walk` callback: a (slash-normalized,
root-relative) file path together with the outcome of reading it.
Directory entries and the hidden-directory skip are orthogonal to the
claims and are not modelled: the list holds the file entries the walk
visits, in walk order. -/
structure WalkEntry where
  path : String
  content : Except String (List Char)
  deriving DecidableEq

/-- The tree walk of `coverage` (lines 102–130): files with a recognized
code extension are read and inventoried with their `numLines` count; a read
error is returned by the callback, upon which `filepath.Walk` stops the
walk and returns the error — which line 102 discards (the `filepath.Walk`
call's result is not assigned), so the inventory built so far is used and
no failure is reported. -/
def buildInventory : List WalkEntry → List (String × codeFileDatum)
  | [] => []
  | e :: rest =>
      match extToLang (fileExt e.path) with
      | none => buildInventory rest
      | some lang =>
          match e.content with
          | .ok b =>
              (e.path,
                { LoC := numLines b, NumRefs := 0, NumDefs := 0,
                  NumRefsValid := 0, Language := lang }) :: buildInventory rest
          | .error _ => []

/-! ## Analysis graph loader (`parseGraphData` and the rule loop,
lines 146–187) -/
/-- The outcomes of `readJSONFileFS` that `parseGraphData` distinguishes.
Modelled from the spec: the production of `errEmptyJSONFile` (an artifact
that exists but is syntactically empty) happens in repository code not
under `src/`; the `readJSONFileFS` in `src/unnamed/part_000` supplies the
"not found" (`fs.Open` failing) and decode-error outcomes. -/
inductive ReadErr where
  | emptyJSONFile : ReadErr
  | notExist : ReadErr
  | other : String → ReadErr
  deriving DecidableEq

/-- The loader's accumulated state: the graph outputs kept for aggregation
(`data`), the global normalized definition-key set (`defKeys`, a map used
only for membership), and the warnings logged so far. -/
structure LoaderState where
  data : List Output
  defKeys : List DefKey
  warnings : List String
  deriving DecidableEq

/-- The warning of line 153. -/
def warnEmptyMsg (u : SourceUnit) : String :=
  "Warning: the JSON file is empty for unit " ++ u.«Type» ++ " " ++ u.Name ++ "."

/-- The warning of line 157. -/
def warnMissingMsg (u : SourceUnit) : String :=
  "Warning: no build data for unit " ++ u.«Type» ++ " " ++ u.Name ++ "."

/-- The fatal error of line 160. -/
def fatalReadMsg (graphFile : String) (u : SourceUnit) (msg : String) : String :=
  "error reading JSON file " ++ graphFile ++ " for unit " ++ u.«Type» ++ " " ++
    u.Name ++ ": " ++ msg

/-- `parseGraphData` from lines 149–172: an empty artifact or a missing
artifact logs a warning and contributes nothing; any other read error is
fatal; a successful read appends the item (its refs normalized in place via
`SetFromDefKey`/`adjustDefKey`, since `Output.Refs` holds pointers) and
inserts the unit-adjusted keys of its defs into the global key set. -/
def parseGraphData (read : String → Except ReadErr Output)
    (st : LoaderState) (graphFile : String) (u : SourceUnit) :
    Except String LoaderState :=
  match read graphFile with
  | .error .emptyJSONFile => .ok { st with warnings := st.warnings ++ [warnEmptyMsg u] }
  | .error .notExist => .ok { st with warnings := st.warnings ++ [warnMissingMsg u] }
  | .error (.other msg) => .error (fatalReadMsg graphFile u msg)
  | .ok item =>
      .ok { st with
        data := st.data ++
          [{ item with Refs := item.Refs.map (fun r => r.SetFromDefKey (adjustDefKey r.DefKeyOf u)) }],
        defKeys := st.defKeys ++ item.Defs.map (fun d => adjustDefKey d.Key u) }

/-- A build-plan rule as seen by the loop of lines 174–187: a single-unit
graph rule, a multi-unit graph rule, or any other rule kind (skipped). -/
inductive Rule where
  | unitRule : String → SourceUnit → Rule
  | multiUnitsRule : List (String × SourceUnit) → Rule
  | otherRule : Rule

/-- The inner loop over a multi-unit rule's targets (lines 181–185). -/
def loadTargets (read : String → Except ReadErr Output) :
    List (String × SourceUnit) → LoaderState → Except String LoaderState
  | [], st => .ok st
  | (t, u) :: rest, st =>
      match parseGraphData read st t u with
      | .ok st' => loadTargets read rest st'
      | .error e => .error e

/-- The rule loop of lines 174–187. -/
def loadRules (read : String → Except ReadErr Output) :
    List Rule → LoaderState → Except String LoaderState
  | [], st => .ok st
  | .unitRule t u :: rest, st =>
      match parseGraphData read st t u with
      | .ok st' => loadRules read rest st'
      | .error e => .error e
  | .multiUnitsRule ts :: rest, st =>
      match loadTargets read ts st with
      | .ok st' => loadRules read rest st'
      | .error e => .error e
  | .otherRule :: rest, st => loadRules read rest st

/-! ## Coverage aggregator (lines 189–250) -/
/-- Look up a file's datum in the inventory (Go map read). -/
def lookupDatum (inv : List (String × codeFileDatum)) (p : String) :
    Option codeFileDatum :=
  (inv.find? (fun q => q.1 = p)).map (·.2)

/-- Update a file's datum in the inventory (mutation of the map value
through the stored pointer).  Inventory keys are unique by construction. -/
def updateDatum (inv : List (String × codeFileDatum)) (p : String)
    (f : codeFileDatum → codeFileDatum) : List (String × codeFileDatum) :=
  inv.map (fun q => if q.1 = p then (q.1, f q.2) else q)

/-- The per-reference step of the fold (lines 192–202): if the ref's file
is tracked, its reference count rises, and its valid-reference count rises
when the ref names a defining repository or its key is a known definition
key.  (The `validRefs` slice the source also accumulates is never used
after the loop and is not modelled.) -/
def foldRef (dks : List DefKey) (inv : List (String × codeFileDatum))
    (r : Ref) : List (String × codeFileDatum) :=
  if (lookupDatum inv r.File).isSome then
    updateDatum inv r.File (fun d =>
      let d := { d with NumRefs := d.NumRefs + 1 }
      if r.DefRepo ≠ "" then { d with NumRefsValid := d.NumRefsValid + 1 }
      else if dks.contains r.DefKeyOf then { d with NumRefsValid := d.NumRefsValid + 1 }
      else d)
  else inv

/-- The per-definition step of the fold (lines 205–209). -/
def foldDef (inv : List (String × codeFileDatum)) (d : Def) :
    List (String × codeFileDatum) :=
  if (lookupDatum inv d.File).isSome then
    updateDatum inv d.File (fun c => { c with NumDefs := c.NumDefs + 1 })
  else inv

/-- The refs loop of one item (lines 191–203). -/
def foldRefs (dks : List DefKey) (inv : List (String × codeFileDatum)) :
    List Ref → List (String × codeFileDatum)
  | [] => inv
  | r :: rs => foldRefs dks (foldRef dks inv r) rs

/-- The defs loop of one item (lines 205–209). -/
def foldDefs (inv : List (String × codeFileDatum)) :
    List Def → List (String × codeFileDatum)
  | [] => inv
  | d :: ds => foldDefs (foldDef inv d) ds

/-- The item loop of lines 189–210: refs first, then defs. -/
def aggregate (dks : List DefKey) (inv : List (String × codeFileDatum)) :
    List Output → List (String × codeFileDatum)
  | [] => inv
  | item :: items => aggregate dks (foldDefs (foldRefs dks inv item.Refs) item.Defs) items

/-- `langStats` from lines 213–221. -/
structure langStats where
  numFiles : ℕ
  numIndexedFiles : ℕ
  numDefs : ℕ
  numRefs : ℕ
  numRefsValid : ℕ
  loc : ℕ
  uncoveredFiles : List String
  deriving DecidableEq

/-- The per-file coverage decision of line 233:
`float64(NumDefs+NumRefsValid) / float64(LoC) > fileTokThresh` under IEEE
semantics (NaN compares false, `+∞` compares true). -/
def fileCovered (d : codeFileDatum) : Bool :=
  fgtThresh (fdivNat (d.NumDefs + d.NumRefsValid) d.LoC)

/-- One step of the stats fold (lines 223–238). -/
def foldStats (stats : List (String × langStats)) (file : String)
    (d : codeFileDatum) : List (String × langStats) :=
  let stats :=
    if (stats.find? (fun q => q.1 = d.Language)).isSome then stats
    else stats ++ [(d.Language,
      { numFiles := 0, numIndexedFiles := 0, numDefs := 0, numRefs := 0,
        numRefsValid := 0, loc := 0, uncoveredFiles := [] })]
  stats.map (fun q =>
    if q.1 = d.Language then
      (q.1,
        let s := q.2
        let s := { s with numFiles := s.numFiles + 1, loc := s.loc + d.LoC,
                          numDefs := s.numDefs + d.NumDefs,
                          numRefs := s.numRefs + d.NumRefs,
                          numRefsValid := s.numRefsValid + d.NumRefsValid }
        if fileCovered d then { s with numIndexedFiles := s.numIndexedFiles + 1 }
        else { s with uncoveredFiles := s.uncoveredFiles ++ [file] })
    else q)

/-- The stats loop over the inventory (lines 222–238). -/
def buildStats : List (String × codeFileDatum) → List (String × langStats) →
    List (String × langStats)
  | [], stats => stats
  | (file, d) :: rest, stats => buildStats rest (foldStats stats file d)

/-- `cvg.Coverage`: the emitted per-language record (`FileScore`,
`RefScore`, `TokDensity`, `UncoveredFiles`). -/
structure Coverage where
  FileScore : FloatVal
  RefScore : FloatVal
  TokDensity : FloatVal
  UncoveredFiles : List String
  deriving DecidableEq

/-- The final map construction of lines 240–248. -/
def makeCov (stats : List (String × langStats)) : List (String × Coverage) :=
  stats.map (fun q =>
    (q.1,
      { FileScore := divideSentinel q.2.numIndexedFiles q.2.numFiles (-1),
        RefScore := divideSentinel q.2.numRefsValid q.2.numRefs (-1),
        TokDensity := divideSentinel (q.2.numDefs + q.2.numRefs) q.2.loc (-1),
        UncoveredFiles := q.2.uncoveredFiles }))

/-- The whole `coverage` computation (lines 99–250), over its inputs: the
walk entries, the build plan's rules, and the artifact reader.  The
config/build-plan stages are external collaborators (spec §1) abstracted as
the given `rules`. -/
def coverage (walk : List WalkEntry) (rules : List Rule)
    (read : String → Except ReadErr Output) :
    Except String (List (String × Coverage)) :=
  let inv := buildInventory walk
  match loadRules read rules ⟨[], [], []⟩ with
  | .error e => .error e
  | .ok st => .ok (makeCov (buildStats (aggregate st.defKeys inv st.data) []))

/-! ## Local-repository caching (`src/repo_opt.go`, lines 11–35)

Modelled from the spec: `OpenRepo` itself is an excluded collaborator
("the repository-opening and commit-resolution logic", spec §1); it is
modelled as an arbitrary function from the current working directory to
either a repository or an error (exactly one of the two, as for any Go
`(*Repo, error)` constructor of this shape).  A repository value and an
error value are abstracted as strings. -/
/-- The package-level state of `src/repo_opt.go` plus the bits of process
state the claim mentions: the cached pair, the working directory, and a
count of the `OpenRepo` invocations performed so far. -/
structure RepoProcState where
  localRepo : Option String
  localRepoErr : Option String
  cwd : String
  opens : ℕ
  deriving DecidableEq

/-- Convert an `OpenRepo` outcome into Go's `(*Repo, error)` pair. -/
def toRepoPair : Except String String → Option String × Option String
  | .ok r => (some r, none)
  | .error e => (none, some e)

/-- `openLocalRepo` from `src/repo_opt.go` lines 24–35, with the
`CacheLocalRepo` flag and the `OpenRepo` collaborator as parameters:
without caching it re-opens from the current directory; with caching it
opens only when both package-level variables are still nil and thereafter
returns the stored pair. -/
def openLocalRepo (cache : Bool) (openRepo : String → Except String String)
    (s : RepoProcState) : (Option String × Option String) × RepoProcState :=
  if !cache then
    (toRepoPair (openRepo s.cwd), { s with opens := s.opens + 1 })
  else if s.localRepo = none ∧ s.localRepoErr = none then
    let p := toRepoPair (openRepo s.cwd)
    (p, { s with localRepo := p.1, localRepoErr := p.2, opens := s.opens + 1 })
  else
    ((s.localRepo, s.localRepoErr), s)

/-- The process events the claim quantifies over: a call to
`openLocalRepo`, or a change of working directory (`os.Chdir`). -/
inductive RepoOp where
  | callOpen : RepoOp
  | chdir : String → RepoOp

/-- Run a sequence of events, collecting the pair returned by each
`openLocalRepo` call. -/
def runRepoOps (cache : Bool) (openRepo : String → Except String String) :
    List RepoOp → RepoProcState →
    List (Option String × Option String) × RepoProcState
  | [], s => ([], s)
  | .callOpen :: ops, s =>
      let (p, s') := openLocalRepo cache openRepo s
      let (ps, s'') := runRepoOps cache openRepo ops s'
      (p :: ps, s'')
  | .chdir d :: ops, s => runRepoOps cache openRepo ops { s with cwd := d }

/-! ## Concrete scenario inputs used by counterexamples and witnesses -/
/-- A tree with a single empty Go file: its stripped length is 0, so its
LoC is 0. -/
def zeroLocWalk : List WalkEntry := [⟨"a.go", .ok []⟩]

/-- A unit whose artifact declares one definition in `a.go` and no
references. -/
def zeroLocUnit : SourceUnit := ⟨"GoPackage", "p"⟩

/-- The build plan for the scenario: one single-unit graph rule. -/
def zeroLocRules : List Rule := [.unitRule "u1/graph.json" zeroLocUnit]

/-- The artifact reader for the scenario. -/
def zeroLocRead : String → Except ReadErr Output := fun t =>
  if t = "u1/graph.json" then
    .ok ⟨[⟨⟨"", "", "", "P"⟩, "a.go"⟩], []⟩
  else .error .notExist

/-- A tree walk that hits an unreadable code file before a readable one. -/
def unreadableWalk : List WalkEntry :=
  [⟨"a.go", .error "permission denied"⟩, ⟨"b.go", .ok "x".data⟩]

/-! ### Invariants feeding the per-language score claims -/
/-- Per-file invariant: a file never has more valid references than
references. -/
def DatumWf (d : codeFileDatum) : Prop := d.NumRefsValid ≤ d.NumRefs

/-- Per-bucket invariant: a language bucket exists only with at least one
file, and its valid-reference total never exceeds its reference total. -/
def StatWf (s : langStats) : Prop := 0 < s.numFiles ∧ s.numRefsValid ≤ s.numRefs

/-- The loader state the zero-LoC scenario produces. -/
def zeroLocLoaded : LoaderState :=
  ⟨[⟨[⟨⟨"", "", "", "P"⟩, "a.go"⟩], []⟩], [⟨"", "GoPackage", "p", "P"⟩], []⟩

/-! ### Supporting definitions and lemmas for the repo-caching claim -/
/-- Number of `openLocalRepo` calls in an event sequence. -/
def countCalls : List RepoOp → ℕ
  | [] => 0
  | .callOpen :: ops => countCalls ops + 1
  | .chdir _ :: ops => countCalls ops

/-- The working directory current at the first `openLocalRepo` call of the
sequence (the starting directory if the sequence has no call). -/
def cwdAtFirstCall : List RepoOp → String → String
  | [], d => d
  | .callOpen :: _, d => d
  | .chdir d' :: ops, _ => cwdAtFirstCall ops d'

/-- The pairs an uncached run returns: one fresh `OpenRepo` per call, from
the directory current at that call. -/
def expectedNoCache (f : String → Except String String) :
    List RepoOp → String → List (Option String × Option String)
  | [], _ => []
  | .callOpen :: ops, d => toRepoPair (f d) :: expectedNoCache f ops d
  | .chdir d' :: ops, _ => expectedNoCache f ops d'

/-! ### Rewriting lemmas for `stripFrom` -/
theorem stripFrom_top_nil : stripFrom .top [] = [] := rfl

theorem stripFrom_top_line (rest : List Char) :
    stripFrom .top ('/' :: '/' :: rest) = stripFrom .line rest := rfl

theorem stripFrom_top_block (rest : List Char) :
    stripFrom .top ('/' :: '*' :: rest) = stripFrom .block rest := rfl

theorem stripFrom_top_dq (rest : List Char) :
    stripFrom .top ('"' :: rest) = '"' :: stripFrom (.lit '"' true) rest := rfl

theorem stripFrom_top_sq (rest : List Char) :
    stripFrom .top ('\'' :: rest) = '\'' :: stripFrom (.lit '\'' true) rest := rfl

theorem stripFrom_top_bq (rest : List Char) :
    stripFrom .top ('`' :: rest) = '`' :: stripFrom (.lit '`' false) rest := rfl

theorem stripFrom_top_slash (rest : List Char)
    (h1 : ∀ r, rest ≠ '/' :: r) (h2 : ∀ r, rest ≠ '*' :: r) :
    stripFrom .top ('/' :: rest) = '/' :: stripFrom .top rest := by
  rw [stripFrom.eq_def]
  split <;> try simp_all
  rename_i c r heq
  obtain ⟨hc, hr⟩ := heq
  subst hc; subst hr
  rfl

theorem stripFrom_top_other (c : Char) (rest : List Char)
    (h1 : c ≠ '/') (h2 : c ≠ '"') (h3 : c ≠ '\'') (h4 : c ≠ '`') :
    stripFrom .top (c :: rest) = c :: stripFrom .top rest := by
  rw [stripFrom.eq_def]
  split <;> simp_all

theorem stripFrom_lit_nil (q : Char) (esc : Bool) :
    stripFrom (.lit q esc) [] = [] := by
  cases esc <;> rfl

theorem stripFrom_lit_escNl (q : Char) (rest : List Char) :
    stripFrom (.lit q true) ('\\' :: '\n' :: rest) =
      '\\' :: '\n' :: stripFrom .top rest := rfl

theorem stripFrom_lit_esc (q c2 : Char) (rest : List Char) (h : c2 ≠ '\n') :
    stripFrom (.lit q true) ('\\' :: c2 :: rest) =
      '\\' :: c2 :: stripFrom (.lit q true) rest := by
  have h0 : stripFrom (.lit q true) ('\\' :: c2 :: rest) =
      if c2 = '\n' then '\\' :: c2 :: stripFrom .top rest
      else '\\' :: c2 :: stripFrom (.lit q true) rest := rfl
  rw [h0, if_neg h]

theorem stripFrom_lit_close (q : Char) (esc : Bool) (rest : List Char)
    (h : esc = true → q = '\\' → rest = []) :
    stripFrom (.lit q esc) (q :: rest) = q :: stripFrom .top rest := by
  rw [stripFrom.eq_def]
  split <;> simp_all

theorem stripFrom_lit_nl (q : Char) (rest : List Char) (hq : q ≠ '\n') :
    stripFrom (.lit q true) ('\n' :: rest) = '\n' :: stripFrom .top rest := by
  rw [stripFrom.eq_def]
  split <;> try simp_all
  rename_i heq1 heq2
  obtain ⟨hqq, hesc⟩ := heq1
  obtain ⟨hc, hr⟩ := heq2
  subst hqq; subst hc; subst hr
  rw [if_neg (fun h => hq h.symm), if_pos (by simp)]

theorem stripFrom_lit_other (q : Char) (esc : Bool) (c : Char) (rest : List Char)
    (hne : c ≠ q) (hbs : esc = true → c = '\\' → rest = [])
    (hnl : ¬(esc = true ∧ c = '\n')) :
    stripFrom (.lit q esc) (c :: rest) = c :: stripFrom (.lit q esc) rest := by
  rw [stripFrom.eq_def]
  split <;> simp_all

theorem stripFrom_line_nil : stripFrom .line [] = [] := rfl

theorem stripFrom_line_nl (rest : List Char) :
    stripFrom .line ('\n' :: rest) = '\n' :: stripFrom .top rest := rfl

theorem stripFrom_line_other (c : Char) (rest : List Char) (h : c ≠ '\n') :
    stripFrom .line (c :: rest) = stripFrom .line rest := by
  rw [stripFrom.eq_def]
  split <;> simp_all

theorem stripFrom_block_nil : stripFrom .block [] = [] := rfl

theorem stripFrom_block_end (rest : List Char) :
    stripFrom .block ('*' :: '/' :: rest) = stripFrom .top rest := rfl

theorem stripFrom_block_other (c : Char) (rest : List Char)
    (h : ∀ r, c = '*' → rest = '/' :: r → False) :
    stripFrom .block (c :: rest) = stripFrom .block rest := by
  rw [stripFrom.eq_def]
  split <;> simp_all

/-- A top-level scan never loses the first byte unless it opens a comment:
for `c ≠ '/'` the stripped output again starts with `c`. -/
theorem stripFrom_top_headOf (c : Char) (rest : List Char) (h : c ≠ '/') :
    ∃ t, stripFrom .top (c :: rest) = c :: t := by
  by_cases h2 : c = '"'
  · subst h2; exact ⟨_, stripFrom_top_dq rest⟩
  by_cases h3 : c = '\''
  · subst h3; exact ⟨_, stripFrom_top_sq rest⟩
  by_cases h4 : c = '`'
  · subst h4; exact ⟨_, stripFrom_top_bq rest⟩
  exact ⟨_, stripFrom_top_other c rest h h2 h3 h4⟩

/-- Core idempotence: rescanning the output of a stripping pass (from the
matching mode) strips nothing further. -/
theorem stripFrom_idem (m : ScanMode) (xs : List Char) :
    stripFrom (reMode m) (stripFrom m xs) = stripFrom m xs := by
  induction m, xs using stripFrom.induct with
  | case1 => rfl
  | case2 rest ih =>
      simp only [reMode] at ih ⊢
      rw [stripFrom_top_line]; exact ih
  | case3 rest ih =>
      simp only [reMode] at ih ⊢
      rw [stripFrom_top_block]; exact ih
  | case4 rest _ _ ih =>
      simp only [reMode] at ih ⊢
      rw [stripFrom_top_dq, stripFrom_top_dq]
      exact congrArg _ ih
  | case5 rest _ _ _ ih =>
      simp only [reMode] at ih ⊢
      rw [stripFrom_top_sq, stripFrom_top_sq]
      exact congrArg _ ih
  | case6 rest _ _ _ _ ih =>
      simp only [reMode] at ih ⊢
      rw [stripFrom_top_bq, stripFrom_top_bq]
      exact congrArg _ ih
  | case7 c rest hs1 hs2 h2 h3 h4 ih =>
      simp only [reMode] at ih ⊢
      by_cases hc : c = '/'
      · subst hc
        have hr1 : ∀ r, rest ≠ '/' :: r := fun r hr => hs1 r rfl hr
        have hr2 : ∀ r, rest ≠ '*' :: r := fun r hr => hs2 r rfl hr
        rw [stripFrom_top_slash rest hr1 hr2]
        match hrest : rest with
        | [] => rfl
        | h1 :: t1 =>
            have hh1 : h1 ≠ '/' := fun he => hr1 t1 (by rw [he])
            have hh2 : h1 ≠ '*' := fun he => hr2 t1 (by rw [he])
            obtain ⟨t, ht⟩ := stripFrom_top_headOf h1 t1 hh1
            rw [ht]
            rw [stripFrom_top_slash (h1 :: t)
              (fun r hr => hh1 (List.cons.injEq .. ▸ hr |>.1)
              ) (fun r hr => hh2 (List.cons.injEq .. ▸ hr |>.1))]
            rw [← ht, ih]
      · rw [stripFrom_top_other c rest hc h2 h3 h4,
          stripFrom_top_other c _ hc h2 h3 h4, ih]
  | case8 q esc =>
      simp only [reMode, stripFrom_lit_nil]
  | case9 q rest ih =>
      simp only [reMode] at ih ⊢
      rw [stripFrom_lit_escNl, stripFrom_lit_escNl, ih]
  | case10 q c2 rest hc2 ih =>
      simp only [reMode] at ih ⊢
      rw [stripFrom_lit_esc q c2 rest hc2, stripFrom_lit_esc q c2 _ hc2, ih]
  | case11 esc c rest hno ih =>
      simp only [reMode] at ih ⊢
      have hcl : esc = true → c = '\\' → rest = [] := by
        intro he hc
        cases hrr : rest with
        | nil => rfl
        | cons x r =>
            first
            | exact (hno x r he hc rfl).elim
            | exact (hno x r he hc hrr).elim
      rw [stripFrom_lit_close c esc rest hcl]
      rw [stripFrom_lit_close c esc _ (fun he hc => by rw [hcl he hc]; rfl), ih]
  | case12 q esc c rest hno hne hnl ih =>
      simp only [reMode] at ih ⊢
      obtain ⟨he, hc⟩ : esc = true ∧ c = '\n' := by simpa using hnl
      subst he; subst hc
      rw [stripFrom_lit_nl q rest (fun h => hne h.symm),
        stripFrom_lit_nl q _ (fun h => hne h.symm), ih]
  | case13 q esc c rest hno hne hnl ih =>
      simp only [reMode] at ih ⊢
      have hbs : esc = true → c = '\\' → rest = [] := by
        intro he hc
        cases hrr : rest with
        | nil => rfl
        | cons x r =>
            first
            | exact (hno x r he hc rfl).elim
            | exact (hno x r he hc hrr).elim
      have hnl' : ¬(esc = true ∧ c = '\n') := by
        intro ⟨he, hc⟩; exact hnl (by simp [he, hc])
      rw [stripFrom_lit_other q esc c rest hne hbs hnl']
      rw [stripFrom_lit_other q esc c _ hne
        (fun he hc => by rw [hbs he hc]; exact stripFrom_lit_nil q esc) hnl', ih]
  | case14 => rfl
  | case15 rest ih =>
      simp only [reMode] at ih ⊢
      rw [stripFrom_line_nl]
      rw [stripFrom_top_other '\n' _ (by decide) (by decide) (by decide) (by decide), ih]
  | case16 c rest hc ih =>
      simp only [reMode] at ih ⊢
      rw [stripFrom_line_other c rest (fun h => hc h)]
      exact ih
  | case17 => rfl
  | case18 rest ih =>
      simp only [reMode] at ih ⊢
      rw [stripFrom_block_end]; exact ih
  | case19 c rest hc ih =>
      simp only [reMode] at ih ⊢
      rw [stripFrom_block_other c rest hc]; exact ih

/-- `stripComments` is idempotent. -/
theorem stripComments_idem (xs : List Char) :
    stripComments (stripComments xs) = stripComments xs :=
  stripFrom_idem .top xs

/-! ## Claim theorems -/
/-- **C2.**  The claim states that `numLines` returns the number of
post-stripping segments containing at least one non-whitespace character
(newline-terminated lines plus a final newline-less segment).  The code
contradicts this — and its own doc comment ("counts the number of lines
that are not blank"): `count` starts at `1`, so the terminal segment is
counted unconditionally even when the input ends with a newline (no
terminal segment) or the terminal segment is blank.  At the failing input
`"a\n"` (comment-free, so stripping is the identity) the code returns `2`
while the claimed count is `1`. -/
theorem C2_numLines_eval :
    numLines "a\n".data = 2 ∧
    stripComments "a\n".data = "a\n".data ∧
    specNonBlankSegments "a\n".data = 1 ∧
    numLines "\n".data = 1 ∧ specNonBlankSegments "\n".data = 0 := by decide

/-- **C9.**  Comment stripping is deterministic (it is a pure function of
the bytes) and idempotent: stripping already-stripped input changes
nothing, and hence `numLines` — which strips internally — is unchanged by
an extra stripping pass. -/
theorem C9_strip_idempotent (x : List Char) :
    stripComments (stripComments x) = stripComments x ∧
    numLines (stripComments x) = numLines x := by
  refine ⟨stripComments_idem x, ?_⟩
  show (let d := stripComments (stripComments x);
        if d.length = 0 then 0 else 1 + countFullLines [] d) = numLines x
  rw [stripComments_idem x]
  rfl

/-- **C8.**  `adjustDefKey` is idempotent: normalizing an
already-normalized key (against the same owning unit) is a no-op. -/
theorem C8_adjustDefKey_idempotent (k : DefKey) (u : SourceUnit) :
    adjustDefKey (adjustDefKey k u) u = adjustDefKey k u := by
  unfold adjustDefKey
  by_cases h1 : k.UnitType = "" <;> by_cases h2 : k.Unit = "" <;>
    by_cases h3 : u.«Type» = "" <;> by_cases h4 : u.Name = "" <;>
      simp [h1, h2, h3, h4]

/-- **C7.**  `adjustDefKey` clears the repository field, keeps the path,
and fills an empty unit-type/unit-name from the owning unit; consequently
two units with distinct type/name identities emitting definitions with
empty unit-type/unit-name on the key always obtain distinct normalized
keys. -/
theorem C7_adjustDefKey_normalization :
    (∀ (k : DefKey) (u : SourceUnit),
        (adjustDefKey k u).Repo = "" ∧
        (adjustDefKey k u).Path = k.Path ∧
        (adjustDefKey k u).UnitType =
          (if k.UnitType = "" then u.«Type» else k.UnitType) ∧
        (adjustDefKey k u).Unit = (if k.Unit = "" then u.Name else k.Unit)) ∧
    (∀ (u1 u2 : SourceUnit) (k1 k2 : DefKey),
        k1.UnitType = "" → k1.Unit = "" → k2.UnitType = "" → k2.Unit = "" →
        (u1.«Type», u1.Name) ≠ (u2.«Type», u2.Name) →
        adjustDefKey k1 u1 ≠ adjustDefKey k2 u2) := by
  constructor
  · intro k u
    unfold adjustDefKey
    by_cases h1 : k.UnitType = "" <;> by_cases h2 : k.Unit = "" <;>
      simp [h1, h2]
  · intro u1 u2 k1 k2 h1 h2 h3 h4 hne heq
    apply hne
    have e1 : adjustDefKey k1 u1 = ⟨"", u1.«Type», u1.Name, k1.Path⟩ := by
      unfold adjustDefKey; simp [h1, h2]
    have e2 : adjustDefKey k2 u2 = ⟨"", u2.«Type», u2.Name, k2.Path⟩ := by
      unfold adjustDefKey; simp [h3, h4]
    rw [e1, e2] at heq
    have hT : u1.«Type» = u2.«Type» := congrArg DefKey.UnitType heq
    have hN : u1.Name = u2.Name := congrArg DefKey.Unit heq
    rw [hT, hN]

/-- Witness for C7 at a concrete input: units `("t","A")` and `("t","B")`
both emitting keys with empty unit fields normalize to distinct keys. -/
theorem C7_witness :
    adjustDefKey ⟨"repo1", "", "", "p"⟩ ⟨"t", "A"⟩ ≠
      adjustDefKey ⟨"", "", "", "p"⟩ ⟨"t", "B"⟩ :=
  C7_adjustDefKey_normalization.2 ⟨"t", "A"⟩ ⟨"t", "B"⟩ ⟨"repo1", "", "", "p"⟩
    ⟨"", "", "", "p"⟩ rfl rfl rfl rfl (by decide)

/-- **C5.**  During the graph load, an empty artifact and a missing
artifact each log a warning naming the owning unit's type and name (see
`warnEmptyMsg`/`warnMissingMsg`) and leave the loader state otherwise
unchanged (zero defs/refs contributed) while the computation continues
with the remaining rules; any other read error aborts the whole load with
an error naming the artifact file and the owning unit's type and name (see
`fatalReadMsg`). -/
theorem C5_loader_error_handling (read : String → Except ReadErr Output)
    (rest : List Rule) (st : LoaderState) (t : String) (u : SourceUnit)
    (e : ReadErr) (h : read t = .error e) :
    loadRules read (.unitRule t u :: rest) st =
      match e with
      | .emptyJSONFile =>
          loadRules read rest { st with warnings := st.warnings ++ [warnEmptyMsg u] }
      | .notExist =>
          loadRules read rest { st with warnings := st.warnings ++ [warnMissingMsg u] }
      | .other msg => .error (fatalReadMsg t u msg) := by
  cases e <;> simp [loadRules, parseGraphData, h]

/-- Witness for C5: a loader whose only artifact is empty finishes
successfully with the empty-file warning and no data. -/
theorem C5_witness :
    loadRules (fun _ => .error .emptyJSONFile)
        [.unitRule "u1/graph.json" ⟨"GoPackage", "p"⟩] ⟨[], [], []⟩ =
      .ok ⟨[], [], [warnEmptyMsg ⟨"GoPackage", "p"⟩]⟩ := by
  rw [C5_loader_error_handling (fun _ => .error .emptyJSONFile) []
    ⟨[], [], []⟩ "u1/graph.json" ⟨"GoPackage", "p"⟩ .emptyJSONFile rfl]
  rfl

/-! ### Supporting lemmas for the aggregation claims -/
theorem lookupDatum_update (inv : List (String × codeFileDatum)) (p : String)
    (f : codeFileDatum → codeFileDatum) :
    lookupDatum (updateDatum inv p f) p = (lookupDatum inv p).map f := by
  induction inv with
  | nil => rfl
  | cons q rest ih =>
      by_cases h : q.1 = p
      · simp [lookupDatum, updateDatum, List.find?, h] at ih ⊢
      · simp [lookupDatum, updateDatum, List.find?, h] at ih ⊢
        exact ih

theorem adjustDefKey_Repo (k : DefKey) (u : SourceUnit) :
    (adjustDefKey k u).Repo = "" := by
  unfold adjustDefKey
  by_cases h1 : k.UnitType = "" <;> by_cases h2 : k.Unit = "" <;> simp [h1, h2]

theorem DefKey_setRepo_self (k : DefKey) (h : k.Repo = "") :
    { k with Repo := "" } = k := by
  cases k; simp_all

theorem Ref_setFrom_DefKeyOf (r : Ref) (k : DefKey) :
    (r.SetFromDefKey k).DefKeyOf = { k with Repo := r.DefRepo } := rfl

/-- **C3.**  Counterexample to the claim that a LoC-0 inventory file is
always judged not covered: in the one-empty-file scenario the file has
LoC 0 and one folded definition, yet the per-file decision is `true`
(`1/0 = +∞ > 0.7`), the file is counted in the covered-file count
(file-score 1) and the uncovered-file list of its language is empty. -/
theorem C3_counterexample :
    coverage zeroLocWalk zeroLocRules zeroLocRead =
      .ok [("Go", ⟨.finite 1 1, .finite (-1) 1, .inf, []⟩)] ∧
    fileCovered ⟨0, 0, 1, 0, "Go"⟩ = true := by decide

/-- **C3 (amended).**  The per-file coverage decision for a LoC-0 file
never crashes on the undefined division, but it is judged covered exactly when
the file accumulated at least one definition or valid reference (the
quotient is then `+∞ > 0.7`; with zero accumulated tokens it is NaN, which
compares false, so only then is the file judged not covered). -/
theorem C3_amended (d : codeFileDatum) (h : d.LoC = 0) :
    fileCovered d = decide (0 < d.NumDefs + d.NumRefsValid) := by
  by_cases hn : d.NumDefs + d.NumRefsValid = 0
  · simp [fileCovered, fdivNat, fgtThresh, h, hn]
  · simp only [fileCovered, fdivNat, fgtThresh, h, hn, if_true, if_false,
      if_neg hn, if_pos rfl]
    have : 0 < d.NumDefs + d.NumRefsValid := Nat.pos_of_ne_zero hn
    simp [this]

/-- Witness for C3 (amended) at the LoC-0 datum with one definition. -/
theorem C3_witness : fileCovered ⟨0, 0, 1, 0, "Go"⟩ = decide (0 < 1 + 0) :=
  C3_amended ⟨0, 0, 1, 0, "Go"⟩ rfl

/-- **C4.**  For a reference folded by the aggregator whose file is in the
inventory, the reference count always rises by one and the valid-reference
count rises exactly when the reference carries a non-empty
defining-repository field or its unit-normalized key is in the global
definition-key set.  The reference is folded in the form the loader left
it: local key normalized by `SetFromDefKey (adjustDefKey …)`. -/
theorem C4_ref_validity (dks : List DefKey) (inv : List (String × codeFileDatum))
    (u : SourceUnit) (r : Ref) (d : codeFileDatum)
    (h : lookupDatum inv r.File = some d) :
    lookupDatum (foldRef dks inv (r.SetFromDefKey (adjustDefKey r.DefKeyOf u))) r.File =
      some { d with
        NumRefs := d.NumRefs + 1,
        NumRefsValid :=
          if r.DefRepo ≠ "" ∨ adjustDefKey r.DefKeyOf u ∈ dks
          then d.NumRefsValid + 1 else d.NumRefsValid } := by
  have hfile : (r.SetFromDefKey (adjustDefKey r.DefKeyOf u)).File = r.File := rfl
  have hrepo : (r.SetFromDefKey (adjustDefKey r.DefKeyOf u)).DefRepo = r.DefRepo := rfl
  have hkey : (r.SetFromDefKey (adjustDefKey r.DefKeyOf u)).DefKeyOf =
      { adjustDefKey r.DefKeyOf u with Repo := r.DefRepo } :=
    Ref_setFrom_DefKeyOf r _
  unfold foldRef
  rw [hfile, h]
  split
  · rw [lookupDatum_update, h]
    simp only [Option.map]
    congr 1
    by_cases hR : r.DefRepo = ""
    · have hk2 : (r.SetFromDefKey (adjustDefKey r.DefKeyOf u)).DefKeyOf =
          adjustDefKey r.DefKeyOf u := by
        rw [hkey, hR]
        exact DefKey_setRepo_self _ (adjustDefKey_Repo _ _)
      by_cases hm : adjustDefKey r.DefKeyOf u ∈ dks <;>
        simp [hR, hrepo, hk2, hm, List.elem_iff]
    · simp [hrepo, hR]
  · rename_i hc
    exact absurd rfl hc

/-- Witness for C4: an external reference (non-empty defining repository)
into a tracked file is counted valid even though the key set is empty. -/
theorem C4_witness :
    lookupDatum
        (foldRef [] [("a.go", ⟨5, 0, 0, 0, "Go"⟩)]
          ((⟨"github.com/x", "pt", "pu", "P", "a.go"⟩ : Ref).SetFromDefKey
            (adjustDefKey (⟨"github.com/x", "pt", "pu", "P", "a.go"⟩ : Ref).DefKeyOf
              ⟨"t", "n"⟩)))
        "a.go" =
      some ⟨5, 1, 0, 1, "Go"⟩ := by
  have h := C4_ref_validity [] [("a.go", ⟨5, 0, 0, 0, "Go"⟩)] ⟨"t", "n"⟩
    ⟨"github.com/x", "pt", "pu", "P", "a.go"⟩ ⟨5, 0, 0, 0, "Go"⟩ rfl
  exact h.trans (by decide)

/-- **C6.**  The claim (and the spec) say a failing source-file read aborts
the whole coverage computation and reports the failure.  The code instead
discards `filepath.Walk`'s error (line 102 does not assign the call's
result): the walk stops at the unreadable `a.go`, the readable `b.go` is
never inventoried, and the computation completes successfully over the
partial (here empty) inventory. -/
theorem C6_walk_error_eval :
    coverage unreadableWalk [] (fun _ => .error .notExist) = .ok [] ∧
    buildInventory unreadableWalk = [] ∧
    buildInventory [⟨"b.go", .ok "x".data⟩] = [("b.go", ⟨1, 0, 0, 0, "Go"⟩)] := by
  decide

theorem buildInventory_wf (walk : List WalkEntry) :
    ∀ x ∈ buildInventory walk, DatumWf x.2 := by
  induction walk with
  | nil => intro x hx; cases hx
  | cons e rest ih =>
      intro x hx
      unfold buildInventory at hx
      rcases hl : extToLang (fileExt e.path) with - | lang <;> rw [hl] at hx
      · exact ih x hx
      · rcases hc : e.content with err | b <;> rw [hc] at hx
        · cases hx
        · rcases List.mem_cons.mp hx with h | h
          · subst h; exact Nat.le_refl 0
          · exact ih x h

theorem updateDatum_wf (inv : List (String × codeFileDatum)) (p : String)
    (f : codeFileDatum → codeFileDatum) (hinv : ∀ x ∈ inv, DatumWf x.2)
    (hf : ∀ c, DatumWf c → DatumWf (f c)) :
    ∀ x ∈ updateDatum inv p f, DatumWf x.2 := by
  intro x hx
  simp only [updateDatum] at hx
  rw [List.mem_map] at hx
  obtain ⟨y, hy, rfl⟩ := hx
  by_cases h : y.1 = p
  · simp only [h, if_pos rfl]
    exact hf _ (hinv y hy)
  · simp only [if_neg h]
    exact hinv y hy

theorem foldRef_wf (dks : List DefKey) (inv : List (String × codeFileDatum))
    (r : Ref) (hinv : ∀ x ∈ inv, DatumWf x.2) :
    ∀ x ∈ foldRef dks inv r, DatumWf x.2 := by
  unfold foldRef
  split
  · apply updateDatum_wf _ _ _ hinv
    intro c hc
    unfold DatumWf at hc ⊢
    dsimp only
    split
    · exact Nat.succ_le_succ hc
    · split
      · exact Nat.succ_le_succ hc
      · exact Nat.le_succ_of_le hc
  · exact hinv

theorem foldDef_wf (inv : List (String × codeFileDatum)) (d : Def)
    (hinv : ∀ x ∈ inv, DatumWf x.2) :
    ∀ x ∈ foldDef inv d, DatumWf x.2 := by
  unfold foldDef
  split
  · apply updateDatum_wf _ _ _ hinv
    intro c hc
    exact hc
  · exact hinv

theorem foldRefs_wf (dks : List DefKey) (inv : List (String × codeFileDatum))
    (rs : List Ref) (hinv : ∀ x ∈ inv, DatumWf x.2) :
    ∀ x ∈ foldRefs dks inv rs, DatumWf x.2 := by
  induction rs generalizing inv with
  | nil => exact hinv
  | cons r rs ih => exact ih _ (foldRef_wf dks inv r hinv)

theorem foldDefs_wf (inv : List (String × codeFileDatum)) (ds : List Def)
    (hinv : ∀ x ∈ inv, DatumWf x.2) :
    ∀ x ∈ foldDefs inv ds, DatumWf x.2 := by
  induction ds generalizing inv with
  | nil => exact hinv
  | cons d ds ih => exact ih _ (foldDef_wf inv d hinv)

theorem aggregate_wf (dks : List DefKey) (inv : List (String × codeFileDatum))
    (items : List Output) (hinv : ∀ x ∈ inv, DatumWf x.2) :
    ∀ x ∈ aggregate dks inv items, DatumWf x.2 := by
  induction items generalizing inv with
  | nil => exact hinv
  | cons item items ih =>
      exact ih _ (foldDefs_wf _ _ (foldRefs_wf dks inv item.Refs hinv))

theorem foldStats_wf (stats : List (String × langStats)) (file : String)
    (d : codeFileDatum) (hd : DatumWf d)
    (hs : ∀ y ∈ stats, StatWf y.2) :
    ∀ z ∈ foldStats stats file d, StatWf z.2 := by
  intro z hz
  simp only [foldStats] at hz
  rw [List.mem_map] at hz
  obtain ⟨y, hy, rfl⟩ := hz
  have hy' : y ∈ stats ∨ y = (d.Language, ⟨0, 0, 0, 0, 0, 0, []⟩) := by
    split at hy
    · exact .inl hy
    · rcases List.mem_append.mp hy with h | h
      · exact .inl h
      · exact .inr (by simpa using h)
  by_cases hL : y.1 = d.Language
  · rcases hy' with h | h
    · obtain ⟨hw1, hw2⟩ := hs y h
      unfold DatumWf at hd
      rw [if_pos hL]
      unfold StatWf
      dsimp only
      split <;> exact ⟨Nat.succ_pos _, Nat.add_le_add hw2 hd⟩
    · subst h
      unfold DatumWf at hd
      rw [if_pos rfl]
      unfold StatWf
      dsimp only
      split <;> exact ⟨Nat.succ_pos _, Nat.add_le_add (Nat.le_refl 0) hd⟩
  · rcases hy' with h | h
    · simp only [if_neg hL]
      exact hs y h
    · exact absurd (by rw [h]) hL

theorem buildStats_wf (inv : List (String × codeFileDatum))
    (stats0 : List (String × langStats))
    (hinv : ∀ x ∈ inv, DatumWf x.2) (hs : ∀ y ∈ stats0, StatWf y.2) :
    ∀ z ∈ buildStats inv stats0, StatWf z.2 := by
  induction inv generalizing stats0 with
  | nil => exact hs
  | cons x rest ih =>
      obtain ⟨file, d⟩ := x
      exact ih (foldStats stats0 file d)
        (fun a ha => hinv a (List.mem_cons_of_mem _ ha))
        (foldStats_wf stats0 file d (hinv _ (List.mem_cons_self _ _)) hs)

theorem divideSentinel_finite_of_den_pos (x y : ℕ) (hy : y ≠ 0) :
    ∃ n den, divideSentinel x y (-1) = .finite n den := by
  refine ⟨(x / Nat.gcd x y : ℕ), y / Nat.gcd x y, ?_⟩
  simp [divideSentinel, fdivNat, hy]

theorem divideSentinel_nan_case : divideSentinel 0 0 (-1) = .finite (-1) 1 := rfl

theorem divideSentinel_inf_case (x : ℕ) (hx : x ≠ 0) :
    divideSentinel x 0 (-1) = .inf := by
  simp [divideSentinel, fdivNat, hx]

/-- **C1.**  Counterexample to the claim that every zero-denominator
quotient in the emitted mapping equals the sentinel `-1` and is never NaN
or infinity: in the zero-LoC scenario the `Go` bucket has total LoC 0 (the
token-density denominator) with one definition, and the emitted
token-density is `+∞`, not `-1` — `divideSentinel` replaces only NaN
(`0/0`), not infinity (`x/0`, `x ≠ 0`). -/
theorem C1_counterexample :
    loadRules zeroLocRead zeroLocRules ⟨[], [], []⟩ = .ok zeroLocLoaded ∧
    buildStats (aggregate zeroLocLoaded.defKeys (buildInventory zeroLocWalk)
        zeroLocLoaded.data) [] = [("Go", ⟨1, 1, 1, 0, 0, 0, []⟩)] ∧
    (⟨1, 1, 1, 0, 0, 0, []⟩ : langStats).loc = 0 ∧
    coverage zeroLocWalk zeroLocRules zeroLocRead =
      .ok [("Go", ⟨.finite 1 1, .finite (-1) 1, .inf, []⟩)] ∧
    FloatVal.inf ≠ .finite (-1) 1 := by decide

/-- **C1 (amended).**  For every language bucket of a successful coverage
run: the bucket has at least one file, so the file-score denominator is
never zero and the file-score is finite; valid references never exceed
references, so a zero reference total forces `0/0` and the reference-score
is the sentinel `-1` (and is always finite); the token-density is the
sentinel `-1` when the LoC total is zero *and* the bucket has no
definitions or references, but it is `+∞` — not the sentinel — when the
LoC total is zero with a positive definition/reference total.  The final
conjunct places the record built from exactly these three quotients in the
emitted mapping. -/
theorem C1_amended (walk : List WalkEntry) (rules : List Rule)
    (read : String → Except ReadErr Output) (st : LoaderState)
    (hload : loadRules read rules ⟨[], [], []⟩ = .ok st)
    (lang : String) (s : langStats)
    (hmem : (lang, s) ∈ buildStats
      (aggregate st.defKeys (buildInventory walk) st.data) []) :
    (0 < s.numFiles ∧ s.numRefsValid ≤ s.numRefs) ∧
    (∃ n den, divideSentinel s.numIndexedFiles s.numFiles (-1) = .finite n den) ∧
    (s.numRefs = 0 → divideSentinel s.numRefsValid s.numRefs (-1) = .finite (-1) 1) ∧
    (∃ n den, divideSentinel s.numRefsValid s.numRefs (-1) = .finite n den) ∧
    (s.loc = 0 → s.numDefs + s.numRefs = 0 →
      divideSentinel (s.numDefs + s.numRefs) s.loc (-1) = .finite (-1) 1) ∧
    (s.loc = 0 → 0 < s.numDefs + s.numRefs →
      divideSentinel (s.numDefs + s.numRefs) s.loc (-1) = .inf) ∧
    (lang, (⟨divideSentinel s.numIndexedFiles s.numFiles (-1),
            divideSentinel s.numRefsValid s.numRefs (-1),
            divideSentinel (s.numDefs + s.numRefs) s.loc (-1),
            s.uncoveredFiles⟩ : Coverage)) ∈
      makeCov (buildStats (aggregate st.defKeys (buildInventory walk) st.data) []) := by
  have hwf : StatWf s := by
    have := buildStats_wf (aggregate st.defKeys (buildInventory walk) st.data) []
      (aggregate_wf st.defKeys _ st.data (buildInventory_wf walk))
      (fun y hy => absurd hy (List.not_mem_nil y))
    exact this (lang, s) hmem
  obtain ⟨hfiles, hvr⟩ := hwf
  refine ⟨⟨hfiles, hvr⟩, ?_, ?_, ?_, ?_, ?_, ?_⟩
  · exact divideSentinel_finite_of_den_pos _ _ (Nat.pos_iff_ne_zero.mp hfiles)
  · intro h0
    have : s.numRefsValid = 0 := Nat.le_zero.mp (h0 ▸ hvr)
    rw [this, h0]
    exact divideSentinel_nan_case
  · by_cases h0 : s.numRefs = 0
    · have : s.numRefsValid = 0 := Nat.le_zero.mp (h0 ▸ hvr)
      exact ⟨-1, 1, by rw [this, h0]; exact divideSentinel_nan_case⟩
    · exact divideSentinel_finite_of_den_pos _ _ h0
  · intro hloc hsum
    rw [hsum, hloc]
    exact divideSentinel_nan_case
  · intro hloc hsum
    rw [hloc]
    exact divideSentinel_inf_case _ (Nat.pos_iff_ne_zero.mp hsum)
  · have := List.mem_map_of_mem
      (fun q : String × langStats =>
        (q.1, (⟨divideSentinel q.2.numIndexedFiles q.2.numFiles (-1),
               divideSentinel q.2.numRefsValid q.2.numRefs (-1),
               divideSentinel (q.2.numDefs + q.2.numRefs) q.2.loc (-1),
               q.2.uncoveredFiles⟩ : Coverage))) hmem
    exact this

/-- Witness for C1 (amended), instantiated at the zero-LoC scenario's `Go`
bucket. -/
theorem C1_witness :
    (0 < (⟨1, 1, 1, 0, 0, 0, []⟩ : langStats).numFiles ∧
      (⟨1, 1, 1, 0, 0, 0, []⟩ : langStats).numRefsValid ≤
        (⟨1, 1, 1, 0, 0, 0, []⟩ : langStats).numRefs) ∧
    (∃ n den, divideSentinel 1 1 (-1) = .finite n den) ∧
    ((0 : ℕ) = 0 → divideSentinel 0 0 (-1) = .finite (-1) 1) ∧
    (∃ n den, divideSentinel 0 0 (-1) = .finite n den) ∧
    ((0 : ℕ) = 0 → (1 + 0 : ℕ) = 0 →
      divideSentinel (1 + 0) 0 (-1) = .finite (-1) 1) ∧
    ((0 : ℕ) = 0 → 0 < (1 + 0 : ℕ) → divideSentinel (1 + 0) 0 (-1) = .inf) ∧
    ("Go", (⟨divideSentinel 1 1 (-1), divideSentinel 0 0 (-1),
            divideSentinel (1 + 0) 0 (-1), []⟩ : Coverage)) ∈
      makeCov (buildStats (aggregate zeroLocLoaded.defKeys
        (buildInventory zeroLocWalk) zeroLocLoaded.data) []) :=
  C1_amended zeroLocWalk zeroLocRules zeroLocRead zeroLocLoaded (by decide)
    "Go" ⟨1, 1, 1, 0, 0, 0, []⟩ (by decide)

/-- Once one of the two package-level variables is non-nil, a cached run
never opens again and every call returns the stored pair. -/
theorem runRepoOps_cached (f : String → Except String String)
    (ops : List RepoOp) :
    ∀ s : RepoProcState, ¬(s.localRepo = none ∧ s.localRepoErr = none) →
    (runRepoOps true f ops s).1 =
      List.replicate (countCalls ops) (s.localRepo, s.localRepoErr) ∧
    (runRepoOps true f ops s).2.opens = s.opens ∧
    (runRepoOps true f ops s).2.localRepo = s.localRepo ∧
    (runRepoOps true f ops s).2.localRepoErr = s.localRepoErr := by
  induction ops with
  | nil => intro s h; simp [runRepoOps, countCalls]
  | cons op ops ih =>
      intro s h
      cases op with
      | callOpen =>
          have hstep : openLocalRepo true f s = ((s.localRepo, s.localRepoErr), s) := by
            unfold openLocalRepo
            rw [if_neg (by simp), if_neg h]
          obtain ⟨i1, i2, i3, i4⟩ := ih s h
          simp only [runRepoOps, hstep, countCalls, List.replicate_succ]
          exact ⟨by rw [i1], i2, i3, i4⟩
      | chdir d =>
          have h' : ¬(({ s with cwd := d } : RepoProcState).localRepo = none ∧
              ({ s with cwd := d } : RepoProcState).localRepoErr = none) := h
          obtain ⟨i1, i2, i3, i4⟩ := ih { s with cwd := d } h'
          simp only [runRepoOps, countCalls]
          exact ⟨i1, i2, i3, i4⟩

/-- Without caching, every call re-opens from the directory current at that
call. -/
theorem runRepoOps_nocache (f : String → Except String String)
    (ops : List RepoOp) :
    ∀ s : RepoProcState,
    (runRepoOps false f ops s).1 = expectedNoCache f ops s.cwd ∧
    (runRepoOps false f ops s).2.opens = s.opens + countCalls ops := by
  induction ops with
  | nil => intro s; simp [runRepoOps, expectedNoCache, countCalls]
  | cons op ops ih =>
      intro s
      cases op with
      | callOpen =>
          have hstep : openLocalRepo false f s =
              (toRepoPair (f s.cwd), { s with opens := s.opens + 1 }) := by
            unfold openLocalRepo
            rw [if_pos (by simp)]
          obtain ⟨i1, i2⟩ := ih { s with opens := s.opens + 1 }
          simp only [runRepoOps, hstep, countCalls, expectedNoCache]
          refine ⟨by rw [i1], by rw [i2]; dsimp only; omega⟩
      | chdir d =>
          obtain ⟨i1, i2⟩ := ih { s with cwd := d }
          simp only [runRepoOps, countCalls, expectedNoCache]
          exact ⟨i1, i2⟩

/-- **C10.**  From a fresh process state (both package-level variables nil,
no opens yet): with `CacheLocalRepo` true, the underlying `OpenRepo` runs
at most once and every `openLocalRepo` call returns exactly the pair the
first call stored — the one produced in the directory current at that
first call — even across directory changes; with the flag false, every
call re-opens from the directory current at that call, one `OpenRepo`
invocation per call. -/
theorem C10_openLocalRepo_cache (f : String → Except String String)
    (ops : List RepoOp) (s0 : RepoProcState)
    (h1 : s0.localRepo = none) (h2 : s0.localRepoErr = none)
    (h3 : s0.opens = 0) :
    ((runRepoOps true f ops s0).2.opens ≤ 1 ∧
     (runRepoOps true f ops s0).1 =
       List.replicate (countCalls ops) (toRepoPair (f (cwdAtFirstCall ops s0.cwd)))) ∧
    ((runRepoOps false f ops s0).1 = expectedNoCache f ops s0.cwd ∧
     (runRepoOps false f ops s0).2.opens = countCalls ops) := by
  refine ⟨?_, ?_⟩
  · induction ops generalizing s0 with
    | nil => simp [runRepoOps, countCalls, h3]
    | cons op ops ih =>
        cases op with
        | callOpen =>
            have hstep : openLocalRepo true f s0 =
                (toRepoPair (f s0.cwd),
                 { s0 with localRepo := (toRepoPair (f s0.cwd)).1,
                           localRepoErr := (toRepoPair (f s0.cwd)).2,
                           opens := s0.opens + 1 }) := by
              unfold openLocalRepo
              rw [if_neg (by simp), if_pos ⟨h1, h2⟩]
            have hns : ¬(((toRepoPair (f s0.cwd)).1 : Option String) = none ∧
                ((toRepoPair (f s0.cwd)).2 : Option String) = none) := by
              cases hf : f s0.cwd <;> simp [toRepoPair]
            obtain ⟨c1, c2, -, -⟩ := runRepoOps_cached f ops
              { s0 with localRepo := (toRepoPair (f s0.cwd)).1,
                        localRepoErr := (toRepoPair (f s0.cwd)).2,
                        opens := s0.opens + 1 } hns
            simp only [runRepoOps, hstep, countCalls, cwdAtFirstCall,
              List.replicate_succ]
            constructor
            · rw [c2]; dsimp only; omega
            · rw [c1]
        | chdir d =>
            have := ih { s0 with cwd := d } h1 h2 h3
            simp only [runRepoOps, countCalls, cwdAtFirstCall]
            exact this
  · obtain ⟨i1, i2⟩ := runRepoOps_nocache f ops s0
    exact ⟨i1, by rw [i2, h3]; omega⟩

/-- Witness for C10 at a concrete event sequence with a directory change
between the two calls. -/
theorem C10_witness :
    ((runRepoOps true (fun d => .ok ("repo@" ++ d))
        [.chdir "x", .callOpen, .chdir "y", .callOpen]
        ⟨none, none, "start", 0⟩).2.opens ≤ 1 ∧
     (runRepoOps true (fun d => .ok ("repo@" ++ d))
        [.chdir "x", .callOpen, .chdir "y", .callOpen]
        ⟨none, none, "start", 0⟩).1 =
       List.replicate
         (countCalls [.chdir "x", .callOpen, .chdir "y", .callOpen])
         (toRepoPair ((fun d => Except.ok ("repo@" ++ d))
           (cwdAtFirstCall [.chdir "x", .callOpen, .chdir "y", .callOpen] "start")))) ∧
    ((runRepoOps false (fun d => .ok ("repo@" ++ d))
        [.chdir "x", .callOpen, .chdir "y", .callOpen]
        ⟨none, none, "start", 0⟩).1 =
       expectedNoCache (fun d => .ok ("repo@" ++ d))
         [.chdir "x", .callOpen, .chdir "y", .callOpen] "start" ∧
     (runRepoOps false (fun d => .ok ("repo@" ++ d))
        [.chdir "x", .callOpen, .chdir "y", .callOpen]
        ⟨none, none, "start", 0⟩).2.opens =
       countCalls [.chdir "x", .callOpen, .chdir "y", .callOpen]) :=
  C10_openLocalRepo_cache (fun d => .ok ("repo@" ++ d))
    [.chdir "x", .callOpen, .chdir "y", .callOpen]
    ⟨none, none, "start", 0⟩ rfl rfl rfl

end Srclib
